import Mathlib

/-!
Verification of `srslte::byte_buffer_queue`
(src/lib/include/srslte/upper/byte_buffer_queue.h).

The class wraps a bounded FIFO slot store (`dyn_blocking_queue`, declared in
`srslte/adt/circular_buffer.h`, whose implementation is not part of this
source tree) and keeps a running byte total `unread_bytes : uint32_t`,
updated by the `push_callback` / `pop_callback` hooks that the store invokes
exactly once per successful push / pop.

Embedding choices:
* a `uint32_t` value is a `Nat` kept below `2 ^ 32`; every arithmetic step
  the C++ performs on `uint32_t` is written with an explicit `% 2 ^ 32`
  (addition) or as two's-complement modular subtraction (`sub32`);
* `unique_byte_buffer_t` (a possibly-null owning pointer) is
  `Option byte_buffer`;
* the slot store is the ordered list of its slots plus the capacity bound;
  its operations (`try_push`, `push_blocking`, `try_pop`, `set_size`,
  `try_call_on_front`) are modelled from the spec, as marked on each
  definition, while the wrapper bodies and both callbacks are translated
  from the header itself;
* blocking calls are modelled at their return point: `write` denotes the
  state after the insertion `push_blocking` eventually performs.
-/

namespace srslte

/-- A byte buffer: the payload length counter `N_bytes` together with the
payload bytes themselves (the C++ `byte_buffer_t` keeps both; nothing here
ties the counter to the payload, just as in the source). -/
structure byte_buffer where
  N_bytes : Nat
  msg : List Nat
deriving DecidableEq, Repr

/-- `unique_byte_buffer_t` is an owning pointer that may be null. -/
abbrev unique_byte_buffer_t := Option byte_buffer

/-- `2 ^ 32`, the modulus of `uint32_t` arithmetic. -/
def U32 : Nat := 2 ^ 32

/-- Two's-complement `uint32_t` subtraction `a - b` (both reduced mod `2^32`). -/
def sub32 (a b : Nat) : Nat := (a + (U32 - b % U32)) % U32

/-- `push_callback::operator()` (header lines 80–84):
`*unread_bytes += msg->N_bytes;` on `uint32_t`, hence mod `2 ^ 32`.
The argument is the dereferenced buffer (the C++ dereferences the pointer
unconditionally, so a null push is outside the defined behaviour). -/
def push_callback (unread_bytes N_bytes : Nat) : Nat :=
  (unread_bytes + N_bytes) % U32

/-- `pop_callback::operator()` (header lines 85–89):
`*unread_bytes -= std::min(msg->N_bytes, *unread_bytes);` on `uint32_t`. -/
def pop_callback (unread_bytes N_bytes : Nat) : Nat :=
  sub32 unread_bytes (min N_bytes unread_bytes)

/-- Length read through a (possibly null) buffer pointer.  The callbacks only
ever receive pointers stored by a push of a real buffer; the `none` branch
models the (undefined) null dereference as 0 and is unreachable from the
operations below. -/
def lensOf : unique_byte_buffer_t → Nat
  | some b => b.N_bytes
  | none => 0

/-- The accounted queue: the slot store's ordered contents (head of the list
is the head of line), its capacity bound, and the `unread_bytes` counter. -/
structure byte_buffer_queue where
  slots : List unique_byte_buffer_t
  capacity : Nat
  unread_bytes : Nat
deriving DecidableEq, Repr

namespace byte_buffer_queue

/-- A freshly constructed queue with the given capacity: empty store,
`unread_bytes = 0` (header lines 43, 92). -/
def fresh (capacity : Nat) : byte_buffer_queue :=
  { slots := [], capacity := capacity, unread_bytes := 0 }

/-- `try_write` delegates to the store's `try_push` and, on success, the
store runs `push_callback`.  Modelled from the spec: `try_push` inserts at
the tail if admission is open (occupancy below the capacity bound) and
otherwise returns the buffer to the caller unchanged, with no hook run.
Result: new state, plus `some` of the returned buffer on rejection. -/
def try_write (q : byte_buffer_queue) (m : byte_buffer) :
    byte_buffer_queue × Option byte_buffer :=
  if q.capacity ≤ q.slots.length then
    (q, some m)
  else
    ({ slots := q.slots ++ [some m], capacity := q.capacity,
       unread_bytes := push_callback q.unread_bytes m.N_bytes }, none)

/-- `write` delegates to the store's `push_blocking`, modelled at its return
point.  Modelled from the spec: `push_blocking` suspends until a slot is
free, inserts at the tail and runs the push hook before returning, so on
return the buffer has been inserted exactly once and the byte counter
updated by `push_callback`. -/
def write (q : byte_buffer_queue) (m : byte_buffer) : byte_buffer_queue :=
  { slots := q.slots ++ [some m], capacity := q.capacity,
    unread_bytes := push_callback q.unread_bytes m.N_bytes }

/-- `try_read` delegates to the store's `try_pop`.  Modelled from the spec:
`try_pop` removes and returns the head if one exists (running the pop hook
once), and reports failure on an empty store without touching it.
Result: new state, plus `some` of the removed slot on success. -/
def try_read (q : byte_buffer_queue) :
    byte_buffer_queue × Option unique_byte_buffer_t :=
  match q.slots with
  | [] => (q, none)
  | m :: rest =>
      ({ slots := rest, capacity := q.capacity,
         unread_bytes := pop_callback q.unread_bytes (lensOf m) }, some m)

/-- `resize` delegates to the store's `set_size`.  Modelled from the spec:
it changes the capacity bound used by future admission checks and evicts
nothing. -/
def resize (q : byte_buffer_queue) (capacity : Nat) : byte_buffer_queue :=
  { slots := q.slots, capacity := capacity, unread_bytes := q.unread_bytes }

/-- `size()` — the store's occupancy (header line 57). -/
def size (q : byte_buffer_queue) : Nat := q.slots.length

/-- `size_bytes()` — returns `unread_bytes` (header line 59). -/
def size_bytes (q : byte_buffer_queue) : Nat := q.unread_bytes

/-- `size_tail_bytes()` (header lines 61–70): `size_next = 0`, then the
store's `try_call_on_front` runs the visitor on the head slot when one
exists (modelled from the spec; no-op when empty); the visitor adds
`front_val->N_bytes` only when `front_val != nullptr`. -/
def size_tail_bytes (q : byte_buffer_queue) : Nat :=
  let size_next := 0
  match q.slots with
  | [] => size_next
  | front_val :: _ =>
      match front_val with
      | none => size_next
      | some b => size_next + b.N_bytes

/-- `reset()` (header line 73): `unread_bytes = 0`, nothing else. -/
def reset (q : byte_buffer_queue) : byte_buffer_queue :=
  { slots := q.slots, capacity := q.capacity, unread_bytes := 0 }

/-- `is_empty()` — the store's `empty()` (occupancy zero). -/
def is_empty (q : byte_buffer_queue) : Bool := q.slots.length = 0

/-- `is_full()` — the store's `full()` (occupancy equals capacity). -/
def is_full (q : byte_buffer_queue) : Bool := q.slots.length = q.capacity

end byte_buffer_queue

/-- One client operation on the queue: a (non-null) buffer write, a read, or
a capacity resize. -/
inductive qop where
  | push (b : byte_buffer)
  | pop
  | resize (c : Nat)
deriving DecidableEq, Repr

/-- The buffers a list of operations attempts to push, in order. -/
def pushesOf (ops : List qop) : List byte_buffer :=
  ops.filterMap fun op =>
    match op with
    | .push b => some b
    | _ => none

/-- Outcome of running a list of operations: final queue state, whether every
push and pop succeeded, and the slots returned by the successful pops in
order. -/
structure RunOut where
  q : byte_buffer_queue
  ok : Bool
  popped : List unique_byte_buffer_t
deriving DecidableEq, Repr

/-- Sequential execution of a list of operations.  Pushes use `try_write`
and pops `try_read`; `ok` records that none was rejected, so an `ok` run is
exactly a sequence of successful (equivalently, blocking) writes and reads. -/
def run (q : byte_buffer_queue) : List qop → RunOut
  | [] => ⟨q, true, []⟩
  | .push b :: ops =>
      let w := q.try_write b
      let r := run w.1 ops
      ⟨r.q, w.2.isNone && r.ok, r.popped⟩
  | .pop :: ops =>
      let w := q.try_read
      let r := run w.1 ops
      ⟨r.q, w.2.isSome && r.ok, w.2.toList ++ r.popped⟩
  | .resize c :: ops => run (q.resize c) ops

/-- Holds when every `resize` in the run keeps the capacity at or above the
occupancy at that moment. -/
def resizes_ok (q : byte_buffer_queue) : List qop → Bool
  | [] => true
  | .push b :: ops => resizes_ok (q.try_write b).1 ops
  | .pop :: ops => resizes_ok q.try_read.1 ops
  | .resize c :: ops =>
      decide (q.slots.length ≤ c) && resizes_ok (q.resize c) ops

/-- Total payload length of a list of buffers. -/
def sumLens (bs : List byte_buffer) : Nat := (bs.map byte_buffer.N_bytes).sum

/-- Total payload length seen through a list of buffer pointers. -/
def sumLensU (l : List unique_byte_buffer_t) : Nat := (l.map lensOf).sum

theorem sumLensU_map_some (bs : List byte_buffer) :
    sumLensU (bs.map some) = sumLens bs := by
  simp only [sumLensU, sumLens, List.map_map]
  exact congrArg List.sum (List.map_congr_left fun b _ => rfl)

theorem sumLens_append (a b : List byte_buffer) :
    sumLens (a ++ b) = sumLens a + sumLens b := by
  simp [sumLens]

theorem sumLensU_append (a b : List unique_byte_buffer_t) :
    sumLensU (a ++ b) = sumLensU a + sumLensU b := by
  simp [sumLensU]

theorem U32_pos : 0 < U32 := by
  simp [U32]

/-- `uint32_t` subtraction of `min n u` from `u` never borrows: for any
in-range counter value it coincides with truncated natural subtraction, so
it saturates at zero instead of wrapping. -/
theorem pop_callback_eq (u n : Nat) (hu : u < U32) :
    pop_callback u n = u - min n u := by
  have hmin : min n u ≤ u := min_le_right n u
  have hmod : min n u % U32 = min n u :=
    Nat.mod_eq_of_lt (lt_of_le_of_lt hmin hu)
  unfold pop_callback sub32
  rw [hmod]
  have h1 : u + (U32 - min n u) = U32 + (u - min n u) := by omega
  rw [h1, Nat.add_mod_left]
  exact Nat.mod_eq_of_lt (by omega)

/-- In-range push-side accounting: no wrap as long as the sum stays below
`2 ^ 32`. -/
theorem push_callback_eq (u n : Nat) (h : u + n < U32) :
    push_callback u n = u + n := by
  unfold push_callback
  exact Nat.mod_eq_of_lt h

theorem sumLens_cons (b : byte_buffer) (bs : List byte_buffer) :
    sumLens (b :: bs) = b.N_bytes + sumLens bs := by
  simp [sumLens]

/-- Run invariant: starting from a store holding exactly the (non-null)
buffers `bs`, an all-successful run leaves some buffer list `bs'` in the
store, the popped slots followed by `bs'` are exactly `bs` followed by the
pushed buffers (FIFO, no loss, no duplication), and — when the byte counter
started in sync and the grand total stays below `2 ^ 32` — the counter ends
equal to the resident total. -/
theorem run_inv (ops : List qop) (q : byte_buffer_queue) (bs : List byte_buffer)
    (hslots : q.slots = bs.map some) (hok : (run q ops).ok = true) :
    ∃ bs', (run q ops).q.slots = bs'.map some ∧
      (run q ops).popped ++ bs'.map some = (bs ++ pushesOf ops).map some ∧
      (q.unread_bytes = sumLens bs → sumLens (bs ++ pushesOf ops) < U32 →
        (run q ops).q.unread_bytes = sumLens bs') := by
  induction ops generalizing q bs with
  | nil =>
      refine ⟨bs, ?_, ?_, ?_⟩
      · simpa [run] using hslots
      · simp [run, pushesOf]
      · intro h _
        simpa [run] using h
  | cons op ops ih =>
      cases op with
      | push b =>
          simp only [run] at hok ⊢
          simp only [Bool.and_eq_true] at hok
          obtain ⟨hw, hrest⟩ := hok
          by_cases hc : q.capacity ≤ q.slots.length
          · simp [byte_buffer_queue.try_write, hc] at hw
          · have hw1 : (q.try_write b).1 =
                { slots := q.slots ++ [some b], capacity := q.capacity,
                  unread_bytes := push_callback q.unread_bytes b.N_bytes } := by
              simp [byte_buffer_queue.try_write, hc]
            rw [hw1] at hrest
            have hslots' :
                ({ slots := q.slots ++ [some b], capacity := q.capacity,
                   unread_bytes :=
                     push_callback q.unread_bytes b.N_bytes } :
                  byte_buffer_queue).slots = (bs ++ [b]).map some := by
              simp [hslots]
            obtain ⟨bs', h1, h2, h3⟩ := ih _ _ hslots' hrest
            refine ⟨bs', ?_, ?_, ?_⟩
            · rw [hw1]; exact h1
            · rw [hw1, h2]
              simp [pushesOf]
            · intro hu hlt
              rw [hw1]
              have htot : sumLens (bs ++ pushesOf (qop.push b :: ops)) =
                  sumLens ((bs ++ [b]) ++ pushesOf ops) := by
                simp [pushesOf, sumLens_append, sumLens_cons]
              have hlt' : sumLens ((bs ++ [b]) ++ pushesOf ops) < U32 := by
                rw [← htot]; exact hlt
              apply h3 _ hlt'
              have hb : sumLens bs + b.N_bytes < U32 := by
                have := hlt'
                rw [sumLens_append, sumLens_append] at this
                rw [sumLens_cons] at this
                simp [sumLens] at this ⊢
                omega
              simp only [hu]
              rw [push_callback_eq _ _ hb, sumLens_append, sumLens_cons]
              simp [sumLens]
      | pop =>
          simp only [run] at hok ⊢
          simp only [Bool.and_eq_true] at hok
          obtain ⟨hw, hrest⟩ := hok
          cases bs with
          | nil =>
              rw [List.map_nil] at hslots
              simp [byte_buffer_queue.try_read, hslots] at hw
          | cons b bs0 =>
              rw [List.map_cons] at hslots
              have hw1a : q.try_read.1 =
                  { slots := bs0.map some, capacity := q.capacity,
                    unread_bytes :=
                      pop_callback q.unread_bytes b.N_bytes } := by
                simp [byte_buffer_queue.try_read, hslots, lensOf]
              have hw1b : q.try_read.2 = some (some b) := by
                simp [byte_buffer_queue.try_read, hslots]
              rw [hw1a] at hrest
              rw [hw1a, hw1b]
              obtain ⟨bs', h1, h2, h3⟩ := ih _ bs0 rfl hrest
              refine ⟨bs', h1, ?_, ?_⟩
              · simp [pushesOf, h2]
              · intro hu hlt
                have hle : sumLens (b :: bs0) ≤
                    sumLens ((b :: bs0) ++ pushesOf (qop.pop :: ops)) := by
                  rw [sumLens_append]; omega
                have hu32 : q.unread_bytes < U32 := by
                  rw [hu]; exact lt_of_le_of_lt hle hlt
                have hpop : pop_callback q.unread_bytes b.N_bytes =
                    sumLens bs0 := by
                  rw [pop_callback_eq _ _ hu32, hu, sumLens_cons]
                  have : min b.N_bytes (b.N_bytes + sumLens bs0) =
                      b.N_bytes := by omega
                  omega
                apply h3 hpop
                have : sumLens ((b :: bs0) ++ pushesOf (qop.pop :: ops)) =
                    b.N_bytes + sumLens (bs0 ++ pushesOf ops) := by
                  simp [sumLens_append, sumLens_cons, pushesOf]
                omega
      | resize c =>
          simp only [run] at hok ⊢
          have hslots' : (q.resize c).slots = bs.map some := hslots
          obtain ⟨bs', h1, h2, h3⟩ := ih _ _ hslots' hok
          refine ⟨bs', h1, ?_, ?_⟩
          · rw [h2]; simp [pushesOf]
          · intro hu hlt
            apply h3 hu
            simpa [pushesOf] using hlt

/-- Capacity invariant: push admission and pop preserve
`occupancy ≤ capacity`, and so does every `resize` that does not shrink the
capacity below the occupancy at that moment. -/
theorem run_capacity_inv (ops : List qop) (q : byte_buffer_queue)
    (hinv : q.slots.length ≤ q.capacity) (hres : resizes_ok q ops = true) :
    (run q ops).q.slots.length ≤ (run q ops).q.capacity := by
  induction ops generalizing q with
  | nil => simpa [run] using hinv
  | cons op ops ih =>
      cases op with
      | push b =>
          simp only [run, resizes_ok] at hres ⊢
          by_cases hc : q.capacity ≤ q.slots.length
          · have hq : (q.try_write b).1 = q := by
              simp [byte_buffer_queue.try_write, hc]
            rw [hq] at hres ⊢
            exact ih q hinv hres
          · have hq : (q.try_write b).1 =
                { slots := q.slots ++ [some b], capacity := q.capacity,
                  unread_bytes := push_callback q.unread_bytes b.N_bytes } := by
              simp [byte_buffer_queue.try_write, hc]
            rw [hq] at hres ⊢
            apply ih _ _ hres
            simp only [List.length_append, List.length_cons, List.length_nil]
            omega
      | pop =>
          simp only [run, resizes_ok] at hres ⊢
          cases hq : q.slots with
          | nil =>
              have h1 : q.try_read.1 = q := by
                simp [byte_buffer_queue.try_read, hq]
              rw [h1] at hres ⊢
              exact ih q hinv hres
          | cons m rest =>
              have h1 : q.try_read.1 =
                  { slots := rest, capacity := q.capacity,
                    unread_bytes := pop_callback q.unread_bytes (lensOf m) } := by
                simp [byte_buffer_queue.try_read, hq]
              rw [h1] at hres ⊢
              apply ih _ _ hres
              have : q.slots.length = rest.length + 1 := by
                rw [hq]; simp
              simp only []
              omega
      | resize c =>
          simp only [run, resizes_ok, Bool.and_eq_true, decide_eq_true_eq]
            at hres ⊢
          obtain ⟨hbound, hres⟩ := hres
          exact ih _ (by simpa [byte_buffer_queue.resize] using hbound) hres

/-! ## Claim theorems -/

/-- C1 (amended): after any sequence of successful writes and reads from a
fresh queue, provided the total number of bytes pushed stays below `2 ^ 32`,
`size_bytes()` equals the sum of the pushed lengths minus the sum of the
popped lengths (truncated subtraction, i.e. clamped at 0), which is the sum
of the lengths of the buffers still resident. -/
theorem size_bytes_conservation (c : Nat) (ops : List qop)
    (hok : (run (byte_buffer_queue.fresh c) ops).ok = true)
    (hlt : sumLens (pushesOf ops) < U32) :
    (run (byte_buffer_queue.fresh c) ops).q.size_bytes =
      sumLens (pushesOf ops) -
        sumLensU (run (byte_buffer_queue.fresh c) ops).popped := by
  obtain ⟨bs', h1, h2, h3⟩ :=
    run_inv ops (byte_buffer_queue.fresh c) [] rfl hok
  rw [List.nil_append] at h2
  have hsum :
      sumLensU (run (byte_buffer_queue.fresh c) ops).popped + sumLens bs' =
        sumLens (pushesOf ops) := by
    have := congrArg sumLensU h2
    rw [sumLensU_append, sumLensU_map_some, sumLensU_map_some] at this
    exact this
  have hu : (run (byte_buffer_queue.fresh c) ops).q.unread_bytes =
      sumLens bs' := by
    apply h3 rfl
    simpa using hlt
  show (run (byte_buffer_queue.fresh c) ops).q.unread_bytes = _
  omega

/-- Witness for C1: capacity 2, push 10 bytes, push 5 bytes, pop once:
`size_bytes()` reports `15 - 10 = 5`. -/
theorem size_bytes_conservation_witness :
    (run (byte_buffer_queue.fresh 2)
        [qop.push ⟨10, [1]⟩, qop.push ⟨5, []⟩, qop.pop]).q.size_bytes =
      sumLens (pushesOf [qop.push ⟨10, [1]⟩, qop.push ⟨5, []⟩, qop.pop]) -
        sumLensU (run (byte_buffer_queue.fresh 2)
          [qop.push ⟨10, [1]⟩, qop.push ⟨5, []⟩, qop.pop]).popped :=
  size_bytes_conservation 2 _ (by decide) (by decide)

/-- C1, claim as stated fails: two successful pushes of `2 ^ 31` bytes each
(no pops) leave `size_bytes() = 0`, not `Σl - Σm = 2 ^ 32`: the `uint32_t`
counter wrapped. -/
theorem size_bytes_conservation_counterexample :
    (run (byte_buffer_queue.fresh 2)
        [qop.push ⟨2 ^ 31, []⟩, qop.push ⟨2 ^ 31, []⟩]).ok = true ∧
    (run (byte_buffer_queue.fresh 2)
        [qop.push ⟨2 ^ 31, []⟩, qop.push ⟨2 ^ 31, []⟩]).popped = [] ∧
    sumLens (pushesOf [qop.push ⟨2 ^ 31, []⟩, qop.push ⟨2 ^ 31, []⟩]) =
      2 ^ 32 ∧
    (run (byte_buffer_queue.fresh 2)
        [qop.push ⟨2 ^ 31, []⟩, qop.push ⟨2 ^ 31, []⟩]).q.size_bytes = 0 := by
  refine ⟨by decide, by decide, by decide, by decide⟩

/-- C2: on any queue state whose head slot holds a buffer — the byte counter
arbitrary, so drifted states where it undercounts the head length are
included — a successful pop sets the counter to
`unread_bytes - min(N_bytes, unread_bytes)`: the subtraction saturates at
zero and never wraps the unsigned counter. -/
theorem try_read_saturating_decrement (q : byte_buffer_queue)
    (b : byte_buffer) (rest : List unique_byte_buffer_t)
    (hq : q.slots = some b :: rest) (hu : q.unread_bytes < U32) :
    q.try_read.1.unread_bytes =
      q.unread_bytes - min b.N_bytes q.unread_bytes ∧
    q.try_read.1.unread_bytes ≤ q.unread_bytes := by
  have h1 : q.try_read.1.unread_bytes =
      pop_callback q.unread_bytes b.N_bytes := by
    simp [byte_buffer_queue.try_read, hq, lensOf]
  rw [h1, pop_callback_eq _ _ hu]
  exact ⟨rfl, by omega⟩

/-- Witness for C2: drifted state with a 10-byte buffer at the head but a
counter of only 3: the pop leaves the counter at `3 - min 10 3 = 0` instead
of wrapping. -/
theorem try_read_saturating_decrement_witness :
    ({ slots := [some ⟨10, []⟩], capacity := 4, unread_bytes := 3 } :
        byte_buffer_queue).try_read.1.unread_bytes = 3 - min 10 3 ∧
    ({ slots := [some ⟨10, []⟩], capacity := 4, unread_bytes := 3 } :
        byte_buffer_queue).try_read.1.unread_bytes ≤ 3 :=
  try_read_saturating_decrement _ ⟨10, []⟩ [] rfl (by decide)

/-- C3: in any all-successful run from a fresh queue, the popped slots are
exactly the first `M` pushed buffers in push order — the nth successful pop
returns the nth successfully pushed buffer, with no duplication or loss. -/
theorem fifo_order (c : Nat) (ops : List qop)
    (hok : (run (byte_buffer_queue.fresh c) ops).ok = true) :
    (run (byte_buffer_queue.fresh c) ops).popped =
      ((pushesOf ops).map some).take
        (run (byte_buffer_queue.fresh c) ops).popped.length := by
  obtain ⟨bs', h1, h2, h3⟩ :=
    run_inv ops (byte_buffer_queue.fresh c) [] rfl hok
  rw [List.nil_append] at h2
  have h4 :
      ((run (byte_buffer_queue.fresh c) ops).popped ++ bs'.map some).take
        (run (byte_buffer_queue.fresh c) ops).popped.length =
      (run (byte_buffer_queue.fresh c) ops).popped := List.take_left _ _
  rw [h2] at h4
  exact h4.symm

/-- Witness for C3: push A then B, pop twice: the pops return A then B. -/
theorem fifo_order_witness :
    (run (byte_buffer_queue.fresh 2)
        [qop.push ⟨1, [1]⟩, qop.push ⟨2, [2]⟩, qop.pop, qop.pop]).popped =
      ((pushesOf [qop.push ⟨1, [1]⟩, qop.push ⟨2, [2]⟩, qop.pop,
          qop.pop]).map some).take
        (run (byte_buffer_queue.fresh 2)
          [qop.push ⟨1, [1]⟩, qop.push ⟨2, [2]⟩, qop.pop,
            qop.pop]).popped.length :=
  fifo_order 2 _ (by decide)

/-- C4 (amended): `resize` never discards buffered entries (the slots and
the byte counter are untouched; only the admission bound changes), and
`occupied_count ≤ capacity` is preserved by every sequence of operations in
which no `resize` shrinks the capacity below the occupancy at that moment
(after such a shrink the occupancy legitimately exceeds the capacity until
pops drain it, which is the part of the claim the counterexample refutes). -/
theorem capacity_invariant_amended :
    (∀ (q : byte_buffer_queue) (c : Nat),
        (q.resize c).slots = q.slots ∧
        (q.resize c).unread_bytes = q.unread_bytes) ∧
    (∀ (q : byte_buffer_queue) (ops : List qop),
        q.slots.length ≤ q.capacity → resizes_ok q ops = true →
        (run q ops).q.slots.length ≤ (run q ops).q.capacity) :=
  ⟨fun _ _ => ⟨rfl, rfl⟩, fun q ops h1 h2 => run_capacity_inv ops q h1 h2⟩

/-- Witness for C4: a run with a growing resize keeps occupancy within
capacity. -/
theorem capacity_invariant_amended_witness :
    (run (byte_buffer_queue.fresh 1)
        [qop.push ⟨4, []⟩, qop.resize 3, qop.push ⟨6, []⟩]).q.slots.length ≤
      (run (byte_buffer_queue.fresh 1)
        [qop.push ⟨4, []⟩, qop.resize 3, qop.push ⟨6, []⟩]).q.capacity :=
  capacity_invariant_amended.2 (byte_buffer_queue.fresh 1) _ (by decide)
    (by decide)

/-- C4, claim as stated fails: push two buffers at capacity 2, then
`resize(1)`: nothing is discarded, so the occupancy (2) now exceeds the
current capacity (1). -/
theorem capacity_invariant_counterexample :
    (run (byte_buffer_queue.fresh 2)
        [qop.push ⟨1, []⟩, qop.push ⟨2, []⟩, qop.resize 1]).ok = true ∧
    (run (byte_buffer_queue.fresh 2)
        [qop.push ⟨1, []⟩, qop.push ⟨2, []⟩, qop.resize 1]).q.size = 2 ∧
    (run (byte_buffer_queue.fresh 2)
        [qop.push ⟨1, []⟩, qop.push ⟨2, []⟩, qop.resize 1]).q.capacity = 1 ∧
    ¬((run (byte_buffer_queue.fresh 2)
        [qop.push ⟨1, []⟩, qop.push ⟨2, []⟩, qop.resize 1]).q.size ≤
      (run (byte_buffer_queue.fresh 2)
        [qop.push ⟨1, []⟩, qop.push ⟨2, []⟩, qop.resize 1]).q.capacity) := by
  refine ⟨by decide, by decide, by decide, by decide⟩

/-- C5: a rejected `try_write` leaves the queue exactly as it was — in
particular `size_bytes()` and `size()` are unchanged, so no accounting hook
ran — and hands back `some b`, the very buffer passed in, with its length
and content untouched. -/
theorem try_write_rejected_no_change (q : byte_buffer_queue)
    (b : byte_buffer) (h : (q.try_write b).2.isSome = true) :
    (q.try_write b).1 = q ∧ (q.try_write b).2 = some b ∧
    (q.try_write b).1.size_bytes = q.size_bytes ∧
    (q.try_write b).1.size = q.size := by
  by_cases hc : q.capacity ≤ q.slots.length
  · simp [byte_buffer_queue.try_write, hc, byte_buffer_queue.size_bytes,
      byte_buffer_queue.size]
  · simp [byte_buffer_queue.try_write, hc] at h

/-- Witness for C5: a full queue of capacity 1 rejects a 3-byte buffer and
returns it unchanged. -/
theorem try_write_rejected_no_change_witness :
    (({ slots := [some ⟨9, []⟩], capacity := 1, unread_bytes := 9 } :
        byte_buffer_queue).try_write ⟨3, [7]⟩).1 =
      { slots := [some ⟨9, []⟩], capacity := 1, unread_bytes := 9 } ∧
    (({ slots := [some ⟨9, []⟩], capacity := 1, unread_bytes := 9 } :
        byte_buffer_queue).try_write ⟨3, [7]⟩).2 = some ⟨3, [7]⟩ ∧
    (({ slots := [some ⟨9, []⟩], capacity := 1, unread_bytes := 9 } :
        byte_buffer_queue).try_write ⟨3, [7]⟩).1.size_bytes =
      ({ slots := [some ⟨9, []⟩], capacity := 1, unread_bytes := 9 } :
        byte_buffer_queue).size_bytes ∧
    (({ slots := [some ⟨9, []⟩], capacity := 1, unread_bytes := 9 } :
        byte_buffer_queue).try_write ⟨3, [7]⟩).1.size =
      ({ slots := [some ⟨9, []⟩], capacity := 1, unread_bytes := 9 } :
        byte_buffer_queue).size :=
  try_write_rejected_no_change _ ⟨3, [7]⟩ (by decide)

/-- C6: `reset()` zeroes `unread_bytes` and changes nothing else: slots,
capacity and the stored buffers are untouched, so afterwards
`size_bytes() = 0` while `size()` keeps its prior value. -/
theorem reset_zeroes_only_counter (q : byte_buffer_queue) :
    q.reset.unread_bytes = 0 ∧ q.reset.slots = q.slots ∧
    q.reset.capacity = q.capacity ∧ q.reset.size_bytes = 0 ∧
    q.reset.size = q.size :=
  ⟨rfl, rfl, rfl, rfl, rfl⟩

/-- C7: `size_tail_bytes()` is a pure, non-destructive peek — the state is
not an input it modifies, so any number of calls agree — returning 0 on an
empty queue and the head buffer's length otherwise, and the next `read()`
pops exactly that head buffer, whose length is the peeked value. -/
theorem size_tail_bytes_peek (q : byte_buffer_queue) :
    (q.slots = [] → q.size_tail_bytes = 0) ∧
    (∀ (b : byte_buffer) (rest : List unique_byte_buffer_t),
      q.slots = some b :: rest →
        q.size_tail_bytes = b.N_bytes ∧
        q.try_read.2 = some (some b) ∧
        q.try_read.1.slots = rest) := by
  constructor
  · intro h
    simp [byte_buffer_queue.size_tail_bytes, h]
  · intro b rest h
    refine ⟨?_, ?_, ?_⟩
    · simp [byte_buffer_queue.size_tail_bytes, h]
    · simp [byte_buffer_queue.try_read, h]
    · simp [byte_buffer_queue.try_read, h]

/-- Witness for C7: peek on an empty queue gives 0; peek on a queue holding
a 7-byte buffer gives 7 and the following read pops that buffer. -/
theorem size_tail_bytes_peek_witness :
    (byte_buffer_queue.fresh 4).size_tail_bytes = 0 ∧
    (({ slots := [some ⟨7, [1, 2]⟩], capacity := 3, unread_bytes := 7 } :
        byte_buffer_queue).size_tail_bytes = 7 ∧
      ({ slots := [some ⟨7, [1, 2]⟩], capacity := 3, unread_bytes := 7 } :
        byte_buffer_queue).try_read.2 = some (some ⟨7, [1, 2]⟩) ∧
      ({ slots := [some ⟨7, [1, 2]⟩], capacity := 3, unread_bytes := 7 } :
        byte_buffer_queue).try_read.1.slots = []) :=
  ⟨(size_tail_bytes_peek (byte_buffer_queue.fresh 4)).1 rfl,
   (size_tail_bytes_peek _).2 ⟨7, [1, 2]⟩ [] rfl⟩

/-- C8 (amended): when `write(b)` returns, the buffer has been inserted
exactly once at the tail and the byte total has been incremented by
`b.N_bytes` modulo `2 ^ 32` — exactly `b.N_bytes` whenever the sum stays
below `2 ^ 32` (the `uint32_t` counter wraps otherwise, which is what the
counterexample exhibits). -/
theorem write_increments_bytes (q : byte_buffer_queue) (b : byte_buffer) :
    (q.write b).size_bytes = (q.size_bytes + b.N_bytes) % U32 ∧
    (q.write b).slots = q.slots ++ [some b] ∧
    (q.size_bytes + b.N_bytes < U32 →
      (q.write b).size_bytes = q.size_bytes + b.N_bytes) := by
  refine ⟨rfl, rfl, fun h => ?_⟩
  show push_callback q.unread_bytes b.N_bytes = _
  exact push_callback_eq _ _ h

/-- Witness for C8: writing a 10-byte buffer to a fresh queue raises
`size_bytes()` from 0 to 10. -/
theorem write_increments_bytes_witness :
    ((byte_buffer_queue.fresh 3).write ⟨10, []⟩).size_bytes =
      (byte_buffer_queue.fresh 3).size_bytes + 10 :=
  (write_increments_bytes (byte_buffer_queue.fresh 3) ⟨10, []⟩).2.2
    (by decide)

/-- C8, claim as stated fails: with the counter at `2 ^ 32 - 1`, a
successful 1-byte write leaves `size_bytes() = 0`, not the old total plus
the written length. -/
theorem write_increments_bytes_counterexample :
    (({ slots := [], capacity := 4, unread_bytes := 2 ^ 32 - 1 } :
        byte_buffer_queue).write ⟨1, []⟩).size_bytes = 0 ∧
    ¬((({ slots := [], capacity := 4, unread_bytes := 2 ^ 32 - 1 } :
        byte_buffer_queue).write ⟨1, []⟩).size_bytes =
      ({ slots := [], capacity := 4, unread_bytes := 2 ^ 32 - 1 } :
        byte_buffer_queue).size_bytes + 1) := by
  refine ⟨by decide, by decide⟩

/-- C9: the push-side accounting is addition modulo `2 ^ 32`: whenever the
counter plus the incoming length reaches `2 ^ 32`, `push_callback` wraps to
`u + n - 2 ^ 32`, strictly under-reporting; only the pop side is clamped. -/
theorem push_callback_wraps (u n : Nat) (hu : u < U32) (hn : n < U32)
    (hw : U32 ≤ u + n) :
    push_callback u n = u + n - U32 ∧ push_callback u n < u + n := by
  have hU : U32 = 4294967296 := by norm_num [U32]
  unfold push_callback
  rw [hU] at hu hn hw ⊢
  omega

/-- Witness for C9: `2 ^ 31` resident bytes plus a `2 ^ 31`-byte push wrap
the counter to 0. -/
theorem push_callback_wraps_witness :
    push_callback (2 ^ 31) (2 ^ 31) = 2 ^ 31 + 2 ^ 31 - U32 ∧
    push_callback (2 ^ 31) (2 ^ 31) < 2 ^ 31 + 2 ^ 31 :=
  push_callback_wraps (2 ^ 31) (2 ^ 31) (by decide) (by decide) (by decide)

/-- C10: if the head-of-line slot holds a null buffer handle,
`size_tail_bytes()` returns 0 — the visitor's `front_val != nullptr` guard
makes the peek total over all slot contents, null included. -/
theorem size_tail_bytes_null_front (q : byte_buffer_queue)
    (rest : List unique_byte_buffer_t) (h : q.slots = none :: rest) :
    q.size_tail_bytes = 0 := by
  simp [byte_buffer_queue.size_tail_bytes, h]

/-- Witness for C10: a queue whose only slot is a null handle peeks as 0. -/
theorem size_tail_bytes_null_front_witness :
    ({ slots := [none], capacity := 2, unread_bytes := 0 } :
        byte_buffer_queue).size_tail_bytes = 0 :=
  size_tail_bytes_null_front _ [] rfl

end srslte
